import Mathlib

/-!
Verification of the vert EOSIO/Antelope host-environment core.

The definitions below are a shallow embedding of `src/proton/vm.ts`.
Machine integers are modelled as `Nat` (the intrinsic boundary converts
signed 64-bit values with `BigInt.asUintN(64, ·)`, a bijection onto
`[0, 2^64)`, so intrinsic arguments are taken unsigned directly);
iterator handles, which the source manipulates as signed 32-bit values
with negative sentinels, are modelled as `Int`; byte strings are
`List Nat`; fallible intrinsics return `Except String`, mirroring the
thrown JS `Error`s, paired with the post-state (mutations performed
before a throw persist, as they do in the source).

Components of the repository that the intrinsics call but whose files
are not part of `src/` (the ordered table `table.ts`, the iterator
cache `iterator-cache.ts`, the blockchain `blockchain.ts`, the name
codec and crypto primitives) are modelled from the specification; each
such definition carries a doc comment saying so.
-/

/-- A primary-index row: `KeyValueObject` of `table.ts`, as described by the
spec's data model (`Row (primary)`): table id, primary key, payer, value bytes. -/
structure KeyValueObject where
  tableId : Nat
  primaryKey : Nat
  payer : Nat
  value : List Nat
deriving Repr, DecidableEq

/-- A secondary-index entry (`IndexObject` of `table.ts`), parameterized by
the secondary key type. -/
structure IndexObject (κ : Type) where
  tableId : Nat
  primaryKey : Nat
  secondaryKey : κ
  payer : Nat
deriving Repr, DecidableEq

/-- Modelled from the spec: `table.ts` is not under `src/`; §3 "Table" — a
table is identified by (code, scope, table), owns a process-wide numeric id
and the primary index (ordered map primary key → Row). Rows are kept as a
list; the ordered-map operations below select by least/greatest key. -/
structure Table where
  id : Nat
  code : Nat
  scope : Nat
  tableName : Nat
  payer : Nat
  rows : List KeyValueObject
deriving Repr, DecidableEq

/-- Row with the least primary key in a list (none on empty). -/
def minRow : List KeyValueObject → Option KeyValueObject
  | [] => none
  | r :: rs =>
    match minRow rs with
    | none => some r
    | some m => if r.primaryKey ≤ m.primaryKey then some r else some m

/-- Row with the greatest primary key in a list (none on empty). -/
def maxRow : List KeyValueObject → Option KeyValueObject
  | [] => none
  | r :: rs =>
    match maxRow rs with
    | none => some r
    | some m => if m.primaryKey ≤ r.primaryKey then some r else some m

/-- Modelled from the spec: §4.3 `get`. -/
def Table.get (t : Table) (k : Nat) : Option KeyValueObject :=
  t.rows.find? (fun r => r.primaryKey == k)

/-- Modelled from the spec: §4.3 — membership of a primary key. -/
def Table.has (t : Table) (k : Nat) : Bool :=
  (t.get k).isSome

/-- Modelled from the spec: §4.3 `insert`/replace at a primary key
(`tab.set(id, kv)` in the source callers). -/
def Table.setRow (t : Table) (kv : KeyValueObject) : Table :=
  { t with rows := t.rows.filter (fun r => r.primaryKey != kv.primaryKey) ++ [kv] }

/-- Modelled from the spec: §4.3 `erase`. -/
def Table.deleteRow (t : Table) (k : Nat) : Table :=
  { t with rows := t.rows.filter (fun r => r.primaryKey != k) }

/-- Modelled from the spec: §4.3 `lower_bound` — least row with key ≥ k. -/
def Table.lowerbound (t : Table) (k : Nat) : Option KeyValueObject :=
  minRow (t.rows.filter (fun r => k ≤ r.primaryKey))

/-- Modelled from the spec: §4.3 `upper_bound` — least row with key > k. -/
def Table.upperbound (t : Table) (k : Nat) : Option KeyValueObject :=
  minRow (t.rows.filter (fun r => k < r.primaryKey))

/-- Modelled from the spec: §4.3 `next(key)` — strict successor. -/
def Table.next (t : Table) (k : Nat) : Option KeyValueObject :=
  minRow (t.rows.filter (fun r => k < r.primaryKey))

/-- Modelled from the spec: §4.3 `prev(key)` — strict predecessor. -/
def Table.prev (t : Table) (k : Nat) : Option KeyValueObject :=
  maxRow (t.rows.filter (fun r => r.primaryKey < k))

/-- Modelled from the spec: §4.3 `penultimate()` — the maximum element. -/
def Table.penultimate (t : Table) : Option KeyValueObject :=
  maxRow t.rows

/-- Modelled from the spec: the `Store` of `table.ts` — tables keyed by
(code, scope, table), with a process-wide table-id sequence. -/
structure Store where
  tables : List Table
  tableIdSeq : Nat
deriving Repr, DecidableEq

def Store.findTable (s : Store) (code scope tableName : Nat) : Option Table :=
  s.tables.find? (fun t => t.code == code && t.scope == scope && t.tableName == tableName)

def Store.getTableById (s : Store) (id : Nat) : Option Table :=
  s.tables.find? (fun t => t.id == id)

def Store.createTable (s : Store) (code scope tableName payer : Nat) : Table × Store :=
  let t : Table := ⟨s.tableIdSeq, code, scope, tableName, payer, []⟩
  (t, { tables := s.tables ++ [t], tableIdSeq := s.tableIdSeq + 1 })

/-- Replace the contents of the table with the given id. -/
def Store.updateTable (s : Store) (t : Table) : Store :=
  { s with tables := s.tables.map (fun u => if u.id == t.id then t else u) }

/-- Modelled from the spec: `iterator-cache.ts` is not under `src/`; §4.2 —
non-negative handles are indices into an arena (a tombstoned slot is `none`),
and each table visited in the action gets a negative end sentinel −2, −3, …
in caching order. -/
structure IteratorCache (α : Type) where
  items : List (Option α)
  cachedTables : List Nat
deriving Repr, DecidableEq

def IteratorCache.empty {α : Type} : IteratorCache α := ⟨[], []⟩

/-- Position of a table id in the list of cached tables (first occurrence). -/
def idxOfTable : List Nat → Nat → Option Nat
  | [], _ => none
  | a :: rest, tid => if a = tid then some 0 else (idxOfTable rest tid).map (· + 1)

/-- Modelled from the spec: §4.2 `cache_table(t) → end_iter`, idempotent;
allocates the next sentinel (−2, −3, …) the first time a table is seen. -/
def IteratorCache.cacheTable {α : Type} (c : IteratorCache α) (tid : Nat) :
    Int × IteratorCache α :=
  match idxOfTable c.cachedTables tid with
  | some i => (-(Int.ofNat i) - 2, c)
  | none =>
    (-(Int.ofNat c.cachedTables.length) - 2, { c with cachedTables := c.cachedTables ++ [tid] })

/-- Modelled from the spec: §4.2 `end_iterator_of_table`. -/
def IteratorCache.getEndIteratorByTableId {α : Type} (c : IteratorCache α) (tid : Nat) :
    Option Int :=
  (idxOfTable c.cachedTables tid).map (fun i => -(Int.ofNat i) - 2)

/-- Modelled from the spec: §4.2 `table_from_end_iterator` — inverse lookup
from an end sentinel to the table it stands for. -/
def IteratorCache.findTableByEndIterator {α : Type} (c : IteratorCache α) (e : Int) :
    Option Nat :=
  if e < -1 then c.cachedTables[(-e - 2).toNat]? else none

/-- Modelled from the spec: §4.2 `add(row) → handle` — append, return the
non-negative index. -/
def IteratorCache.add {α : Type} (c : IteratorCache α) (x : α) : Int × IteratorCache α :=
  ((Int.ofNat c.items.length), { c with items := c.items ++ [some x] })

/-- Modelled from the spec: §4.2 `get(handle)` — fails if the handle is
negative, out of range, or tombstoned. -/
def IteratorCache.get {α : Type} (c : IteratorCache α) (h : Int) : Except String α :=
  if h < 0 then .error "invalid iterator"
  else
    match c.items[h.toNat]? with
    | some (some x) => .ok x
    | some none => .error "dereference of deleted object"
    | none => .error "invalid iterator"

/-- Modelled from the spec: §4.2 `set(handle, row)`. -/
def IteratorCache.set {α : Type} (c : IteratorCache α) (h : Int) (x : α) : IteratorCache α :=
  { c with items := c.items.set h.toNat (some x) }

/-- Modelled from the spec: §4.2 `remove(handle)` — tombstone. -/
def IteratorCache.remove {α : Type} (c : IteratorCache α) (h : Int) : IteratorCache α :=
  { c with items := c.items.set h.toNat none }

/-- The state touched by the primary-index database intrinsics: the
process-wide store, the per-action primary iterator cache, and the current
receiver installed by the Context. -/
structure DbState where
  store : Store
  kvCache : IteratorCache KeyValueObject
  receiver : Nat
deriving Repr, DecidableEq

/-- `findOrCreateTable` of `vm.ts` (lines 1445–1451): look the table up and
create it lazily when absent. -/
def findOrCreateTable (st : DbState) (scope tableName payer : Nat) : Table × Store :=
  match st.store.findTable st.receiver scope tableName with
  | some t => (t, st.store)
  | none => st.store.createTable st.receiver scope tableName payer

/-- `db_store_i64` of `vm.ts` (lines 582–602): find-or-create the table for
`code = current receiver`, assert a non-zero payer, assert key uniqueness,
insert the row, cache the table and return a fresh handle. The failed-call
post-state keeps the mutations performed before the throw, as in the source. -/
def db_store_i64 (st : DbState) (scope tableName payer id : Nat) (data : List Nat) :
    DbState × Except String Int :=
  let tabStore := findOrCreateTable st scope tableName payer
  let tab := tabStore.1
  let st1 : DbState := { st with store := tabStore.2 }
  if payer = 0 then
    (st1, .error "must specify a valid account to pay for new record")
  else if tab.has id then
    (st1, .error "key uniqueness violation")
  else
    let kv : KeyValueObject := ⟨tab.id, id, payer, data⟩
    let store2 := st1.store.updateTable (tab.setRow kv)
    let cache1 := (st1.kvCache.cacheTable tab.id).2
    let added := cache1.add kv
    ({ st1 with store := store2, kvCache := added.2 }, .ok added.1)

/-- `db_find_i64` of `vm.ts` (lines 665–675): −1 when the table does not
exist; otherwise cache the table and return either the row's fresh handle or
the table's end iterator. -/
def db_find_i64 (st : DbState) (code scope tableName id : Nat) : DbState × Int :=
  match st.store.findTable code scope tableName with
  | none => (st, -1)
  | some tab =>
    let eiCache := st.kvCache.cacheTable tab.id
    match tab.get id with
    | none => ({ st with kvCache := eiCache.2 }, eiCache.1)
    | some kv =>
      let added := eiCache.2.add kv
      ({ st with kvCache := added.2 }, added.1)

/-- `db_lowerbound_i64` of `vm.ts` (lines 676–690). -/
def db_lowerbound_i64 (st : DbState) (code scope tableName id : Nat) : DbState × Int :=
  match st.store.findTable code scope tableName with
  | none => (st, -1)
  | some tab =>
    let eiCache := st.kvCache.cacheTable tab.id
    match tab.lowerbound id with
    | none => ({ st with kvCache := eiCache.2 }, eiCache.1)
    | some kv =>
      let added := eiCache.2.add kv
      ({ st with kvCache := added.2 }, added.1)

/-- `db_upperbound_i64` of `vm.ts` (lines 691–705). -/
def db_upperbound_i64 (st : DbState) (code scope tableName id : Nat) : DbState × Int :=
  match st.store.findTable code scope tableName with
  | none => (st, -1)
  | some tab =>
    let eiCache := st.kvCache.cacheTable tab.id
    match tab.upperbound id with
    | none => ({ st with kvCache := eiCache.2 }, eiCache.1)
    | some kv =>
      let added := eiCache.2.add kv
      ({ st with kvCache := added.2 }, added.1)

/-- `db_end_i64` of `vm.ts` (lines 706–713). -/
def db_end_i64 (st : DbState) (code scope tableName : Nat) : DbState × Int :=
  match st.store.findTable code scope tableName with
  | none => (st, -1)
  | some tab =>
    let eiCache := st.kvCache.cacheTable tab.id
    ({ st with kvCache := eiCache.2 }, eiCache.1)

/-- `db_next_i64` of `vm.ts` (lines 636–646): −1 on any end iterator;
otherwise step to the strict successor, falling back to the table's end
sentinel after the last row. The primary key written to guest memory is
returned as the optional second component. -/
def db_next_i64 (st : DbState) (iterator : Int) :
    DbState × Except String (Int × Option Nat) :=
  if iterator < -1 then (st, .ok (-1, none))
  else
    match st.kvCache.get iterator with
    | .error e => (st, .error e)
    | .ok kv =>
      match st.store.getTableById kv.tableId with
      | none => (st, .error "table not found")
      | some tab =>
        match tab.next kv.primaryKey with
        | none =>
          match st.kvCache.getEndIteratorByTableId kv.tableId with
          | none => (st, .error "end iterator not found")
          | some ei => (st, .ok (ei, none))
        | some kvNext =>
          let added := st.kvCache.add kvNext
          ({ st with kvCache := added.2 }, .ok (added.1, some kvNext.primaryKey))

/-- `db_previous_i64` of `vm.ts` (lines 647–664): from an end iterator, step
to the table's maximum row (−1 when empty); from a row handle, step to the
strict predecessor (−1 before the first row). -/
def db_previous_i64 (st : DbState) (iterator : Int) :
    DbState × Except String (Int × Option Nat) :=
  if iterator < -1 then
    match st.kvCache.findTableByEndIterator iterator with
    | none => (st, .error "not a valid end iterator")
    | some tid =>
      match st.store.getTableById tid with
      | none => (st, .error "table not found")
      | some tab =>
        match tab.penultimate with
        | none => (st, .ok (-1, none))
        | some kv =>
          let added := st.kvCache.add kv
          ({ st with kvCache := added.2 }, .ok (added.1, some kv.primaryKey))
  else
    match st.kvCache.get iterator with
    | .error e => (st, .error e)
    | .ok kv =>
      match st.store.getTableById kv.tableId with
      | none => (st, .error "table not found")
      | some tab =>
        match tab.prev kv.primaryKey with
        | none => (st, .ok (-1, none))
        | some kvPrev =>
          let added := st.kvCache.add kvPrev
          ({ st with kvCache := added.2 }, .ok (added.1, some kvPrev.primaryKey))

/-- Modelled from the spec: the Antelope name codec (`bn.ts` and the
`@greymass/eosio` `Name` type are external collaborators): a name is a
64-bit base-32 encoded identifier, five bits per character packed from the
high bits. Only its values at "active" and "owner" matter here. -/
def charToSymbol (c : Char) : Nat :=
  if 'a' ≤ c ∧ c ≤ 'z' then c.toNat - 'a'.toNat + 6
  else if '1' ≤ c ∧ c ≤ '5' then c.toNat - '1'.toNat + 1
  else 0

/-- Modelled from the spec: the 64-bit value of a (short, ≤ 12 character)
Antelope name. -/
def nameValue (s : String) : Nat :=
  ((s.toList.take 12).enum.foldl
    (fun acc p => acc + (charToSymbol p.2 % 32) * 2 ^ (59 - 5 * p.1)) 0) % 2 ^ 64

/-- The constant `active` of `vm.ts` (line 29). -/
def activeName : Nat := nameValue "active"

/-- The constant `owner` of `vm.ts` (line 28). -/
def ownerName : Nat := nameValue "owner"

/-- An authorization entry (actor@permission), names as 64-bit values. -/
structure PermissionLevel where
  actor : Nat
  permission : Nat
deriving Repr, DecidableEq

/-- The loop shared by `require_auth` and `has_auth` in `vm.ts`
(lines 130–163): some entry has the given actor with permission
`active` or `owner`. -/
def hasAuthIn (auths : List PermissionLevel) (name : Nat) : Bool :=
  auths.any (fun a => a.actor == name && (a.permission == activeName || a.permission == ownerName))

/-- `require_auth` of `vm.ts` (lines 130–146): assert the loop's result. -/
def require_auth (auths : List PermissionLevel) (name : Nat) : Except String Unit :=
  if hasAuthIn auths name then .ok () else .error "missing required authority"

/-- `has_auth` of `vm.ts` (lines 147–163): return the loop's result. -/
def has_auth (auths : List PermissionLevel) (name : Nat) : Bool :=
  hasAuthIn auths name

/-- A named permission of an account. The weighted-threshold authority
behind it lives in the external `@greymass/eosio` types; it is carried as
an opaque identifier consumed by the abstract satisfaction predicate. -/
structure Permission where
  permName : Nat
  requiredAuth : Nat
deriving Repr, DecidableEq

/-- Modelled from the spec: `account.ts` is not under `src/`; §3 "Account" —
name, optional WASM bytes, declared ABI actions, code sequence, creation
time, named permissions. `isContract` mirrors the source's flag for accounts
carrying code. -/
structure Account where
  name : Nat
  isContract : Bool
  actionNames : List Nat
  wasm : Option (List Nat)
  codeSequence : Nat
  creationTime : Nat
  permissions : List Permission
deriving Repr, DecidableEq

/-- Modelled from the spec: the trace the Blockchain records for a
dispatched action — whether it was a notification, its receiver and its
action ordinal (the fields `require_recipient` consults). -/
structure ActionTrace where
  isNotification : Bool
  receiver : Nat
  actionOrdinal : Nat
deriving Repr, DecidableEq

/-- Modelled from the spec: the process-wide Blockchain state
(`blockchain.ts` is not under `src/`) restricted to what the embedded
intrinsics consult: the account registry and the action traces. -/
structure Blockchain where
  accounts : List Account
  actionTraces : List ActionTrace
deriving Repr, DecidableEq

def Blockchain.getAccount (bc : Blockchain) (n : Nat) : Option Account :=
  bc.accounts.find? (fun a => a.name == n)

/-- A child Context pushed onto an action's queues. Children are created
fresh with empty queues of their own, so the queue entries need none. The
`actionOrdinal` is `none` for inline actions (the source constructor leaves
it undefined) and propagated for notifications. -/
structure ChildContext where
  sender : Nat
  receiver : Nat
  firstReceiver : Nat
  action : Nat
  data : List Nat
  authorization : List PermissionLevel
  actionOrdinal : Option Nat
deriving Repr, DecidableEq

/-- `VM.Context` of `vm.ts` (lines 1691–1719): one action's dynamic state.
Receiver and first receiver are carried by name (the source holds `Account`
objects and always compares their names). -/
structure Context where
  sender : Nat
  receiver : Nat
  firstReceiver : Nat
  action : Nat
  data : List Nat
  authorization : List PermissionLevel
  actionOrdinal : Nat
  actionsQueue : List ChildContext
  notificationsQueue : List ChildContext
deriving Repr, DecidableEq

/-- `Context.isInline` of `vm.ts`: the sender name is non-zero. -/
def Context.isInline (c : Context) : Bool := c.sender != 0

/-- `Context.isNotification` of `vm.ts`: receiver differs from first receiver. -/
def Context.isNotification (c : Context) : Bool := c.receiver != c.firstReceiver

/-- A decoded inline `Action` (the serializer that decodes it from guest
memory is an external collaborator; `send_inline` receives the decoded
record). -/
structure ActionRecord where
  account : Nat
  name : Nat
  data : List Nat
  authorization : List PermissionLevel
deriving Repr, DecidableEq

/-- `send_inline` of `vm.ts` (lines 259–291): throw when the target account
is missing or carries no contract; when the target's ABI declares the
action, push a child Context with sender = current receiver and
receiver = first receiver = target; otherwise fall through silently. -/
def send_inline (bc : Blockchain) (ctx : Context) (act : ActionRecord) :
    Except String Context :=
  match bc.getAccount act.account with
  | none => .error "contract is missing for inline action"
  | some contract =>
    if !contract.isContract then .error "contract is missing for inline action"
    else if contract.actionNames.contains act.name then
      .ok { ctx with actionsQueue := ctx.actionsQueue ++ [{
        sender := ctx.receiver
        receiver := act.account
        firstReceiver := act.account
        action := act.name
        data := act.data
        authorization := act.authorization
        actionOrdinal := none }] }
    else .ok ctx

/-- The duplicate-notification test of `require_recipient` (`vm.ts`
lines 224–226): some recorded trace is a notification to this receiver with
this action ordinal. -/
def hasNotificationTrace (bc : Blockchain) (recv ordinal : Nat) : Bool :=
  bc.actionTraces.any (fun t => t.isNotification && t.receiver == recv && t.actionOrdinal == ordinal)

/-- The notification child Context built by `require_recipient` (`vm.ts`
lines 246–254): same action, data and ordinal, empty authorization, first
receiver inherited from the current Context. -/
def notificationChild (ctx : Context) (recv : Nat) : ChildContext :=
  { sender := 0
    receiver := recv
    firstReceiver := if ctx.isNotification then ctx.firstReceiver else ctx.receiver
    action := ctx.action
    data := ctx.data
    authorization := []
    actionOrdinal := some ctx.actionOrdinal }

/-- `require_recipient` of `vm.ts` (lines 213–257): throw when the account
is unknown; skip silently on a duplicate trace, a non-contract recipient or
self-notification; otherwise enqueue the notification child. -/
def require_recipient (bc : Blockchain) (ctx : Context) (nameN : Nat) :
    Except String Context :=
  match bc.getAccount nameN with
  | none => .error "account missing for require_recipient"
  | some account =>
    if hasNotificationTrace bc account.name ctx.actionOrdinal then .ok ctx
    else if !account.isContract then .ok ctx
    else if account.name == ctx.receiver then .ok ctx
    else .ok { ctx with notificationsQueue :=
      ctx.notificationsQueue ++ [notificationChild ctx account.name] }

/-- Modelled from the spec: the Blockchain (`blockchain.ts`, not under
`src/`) records an `ActionTrace` for every notification Context it
dispatches; §4.6 relies on those traces for the at-most-one guarantee.
Modelled by recording the trace at the moment the notification is enqueued;
the Context transition is exactly `require_recipient`. -/
def require_recipient_traced (bc : Blockchain) (ctx : Context) (nameN : Nat) :
    Except String (Blockchain × Context) :=
  match bc.getAccount nameN with
  | none => .error "account missing for require_recipient"
  | some account =>
    if hasNotificationTrace bc account.name ctx.actionOrdinal then .ok (bc, ctx)
    else if !account.isContract then .ok (bc, ctx)
    else if account.name == ctx.receiver then .ok (bc, ctx)
    else .ok
      ({ bc with actionTraces := bc.actionTraces ++ [⟨true, account.name, ctx.actionOrdinal⟩] },
       { ctx with notificationsQueue :=
          ctx.notificationsQueue ++ [notificationChild ctx account.name] })

/-- The decoded `CodeHashResult` record whose serialized form
`get_code_hash` writes to guest memory (the serializer itself is an
external collaborator). -/
structure CodeHashResult where
  struct_version : Int
  code_sequence : Nat
  code_hash : List Nat
  vm_type : Nat
  vm_version : Nat
deriving Repr, DecidableEq

/-- `get_code_hash` of `vm.ts` (lines 189–211): struct_version is
`Math.min(0, v)`, code_sequence is the account's counter (0 for an unknown
account), code_hash is SHA-256 of the WASM bytes or 32 zero bytes without
code. The SHA-256 primitive is an external collaborator, passed in as a
function. -/
def get_code_hash (sha256 : List Nat → List Nat) (bc : Blockchain)
    (accountName : Nat) (structVersion : Int) : CodeHashResult :=
  let account := bc.getAccount accountName
  { struct_version := min 0 structVersion
    code_sequence := match account with
      | some a => a.codeSequence
      | none => 0
    code_hash := match account with
      | some a =>
        match a.wasm with
        | some w => sha256 w
        | none => List.replicate 32 0
      | none => List.replicate 32 0
    vm_type := 0
    vm_version := 0 }

/-- `SecondaryKeyConverter.checksum256.from` of `vm.ts` (lines 63–68): the
sort bytes of an idx256 key — each 16-byte half of the raw 32 bytes is
reversed in place and the halves are concatenated in their original order. -/
def checksum256_from (b : List Nat) : List Nat :=
  (b.take 16).reverse ++ ((b.drop 16).take 16).reverse

/-- `SecondaryKeyConverter.checksum256.to` of `vm.ts` (lines 69–73): the
bytes written back to the guest buffer for a stored sort key — the same
transformation applied to the stored value. -/
def checksum256_to (v : List Nat) : List Nat :=
  (v.take 16).reverse ++ ((v.drop 16).take 16).reverse

/-- The transformation in the words of the spec (§4.4 "checksum256"): the
byte sequence obtained by swapping the two 16-byte halves and reversing
each half. Stated for comparison with `checksum256_from`. -/
def checksum256SpecSwapReverse (b : List Nat) : List Nat :=
  ((b.drop 16).take 16).reverse ++ (b.take 16).reverse

/-- The transformation that `checksum256_from` actually computes, stated
positionally: byte `i` of the result is raw byte `15 − i` for `i < 16` and
raw byte `47 − i` for `16 ≤ i < 32` (each half reversed in place). -/
def checksum256ReverseHalvesInPlace (b : List Nat) : List Nat :=
  (List.range 32).map (fun i => b.getD (if i < 16 then 15 - i else 47 - i) 0)

/-- `alt_bn128_pair` of `vm.ts` (lines 478–492). The bn128 pairing
primitive (`rustbn.js`) is an external collaborator, modelled as a function
returning the result bytes or `none` when it throws on malformed input. -/
def alt_bn128_pair (pairing : List Nat → Option (List Nat)) (pairs : List Nat) : Int :=
  match pairing pairs with
  | none => -1
  | some result =>
    if result.length ≠ 32 then -1
    else if result.getD 31 0 = 0 then 1 else 0

/-- Modelled from the spec: the success encoding of the external pairing
library assumed by `vm.ts` and recorded in the spec's flagged note — for a
32-byte result, the pairing product equals the identity exactly when the
last byte is zero. -/
def pairingIsIdentity (result : List Nat) : Bool :=
  result.getD 31 0 == 0

/-- The outcome of the guest `apply` export: out of scope for the core (the
WASM engine is an external collaborator), so the guest is modelled by which
way it leaves the call. -/
inductive GuestOutcome
  | normal
  | assertFail (msg : String)
  | exitSentinel (code : Int)
deriving Repr, DecidableEq

/-- What `VM.apply` propagates to the Dispatcher: a normal return, a thrown
assertion error, or the rethrown `EosioExitResult` sentinel. -/
inductive ApplyOutcome
  | ok
  | errored (msg : String)
  | exited (code : Int)
deriving Repr, DecidableEq

/-- The five per-action iterator caches of the `VM` class (`vm.ts`
lines 96–100). The `f64` keys of the double index are carried by their
64-bit pattern. -/
structure VMCaches where
  kvCache : IteratorCache KeyValueObject
  idx64 : IteratorCache (IndexObject Nat)
  idx128 : IteratorCache (IndexObject Nat)
  idx256 : IteratorCache (IndexObject (List Nat))
  idxDouble : IteratorCache (IndexObject Nat)
deriving Repr, DecidableEq

/-- `finalize` of `vm.ts` (lines 1681–1687): replace every cache with a
fresh empty one. -/
def finalizeCaches (_vm : VMCaches) : VMCaches :=
  ⟨IteratorCache.empty, IteratorCache.empty, IteratorCache.empty,
   IteratorCache.empty, IteratorCache.empty⟩

/-- The authorization loop at the head of `VM.apply` (`vm.ts`
lines 1642–1665): every entry's actor must exist and carry the named
permission; for an inline action the permission's authority must be
satisfied by (sender, eosio.code). The weighted-threshold predicate
`isAuthoritySatisfied` lives in `utils.ts` (not under `src/`) and is
abstracted as the function argument `sat` over the permission's authority
and the sender. -/
def authCheck (sat : Nat → Nat → Bool) (bc : Blockchain) (ctx : Context) :
    List PermissionLevel → Except String Unit
  | [] => .ok ()
  | a :: rest =>
    match bc.getAccount a.actor with
    | none => .error "account is missing for inline action"
    | some account =>
      match account.permissions.find? (fun p => p.permName == a.permission) with
      | none => .error "account has no such permission"
      | some p =>
        if ctx.isInline && !sat p.requiredAuth ctx.sender then
          .error "permission is not satisfied"
        else authCheck sat bc ctx rest

/-- `VM.apply` of `vm.ts` (lines 1638–1679): run the authorization loop
(thrown errors there precede the try block, so the caches survive them),
then invoke the guest inside try/finally — `finalize` runs whether the
guest returns, throws an assertion error, or throws the `eosio_exit`
sentinel (`vm.ts` lines 1125–1129), and the outcome is rethrown. -/
def VM.apply (sat : Nat → Nat → Bool) (bc : Blockchain) (vm : VMCaches)
    (ctx : Context) (guest : GuestOutcome) : VMCaches × ApplyOutcome :=
  match authCheck sat bc ctx ctx.authorization with
  | .error m => (vm, .errored m)
  | .ok _ =>
    let vmFinal := finalizeCaches vm
    match guest with
    | .normal => (vmFinal, .ok)
    | .assertFail m => (vmFinal, .errored m)
    | .exitSentinel c => (vmFinal, .exited c)

lemma minRow_spec (l : List KeyValueObject) :
    (l = [] ∧ minRow l = none) ∨
    (∃ m, minRow l = some m ∧ m ∈ l ∧ ∀ r ∈ l, m.primaryKey ≤ r.primaryKey) := by
  induction l with
  | nil => exact Or.inl ⟨rfl, rfl⟩
  | cons r rs ih =>
    right
    rcases ih with ⟨hnil, hnone⟩ | ⟨m, hm, hmem, hle⟩
    · subst hnil
      exact ⟨r, by simp [minRow], by simp, by simp⟩
    · by_cases hc : r.primaryKey ≤ m.primaryKey
      · refine ⟨r, by simp [minRow, hm, hc], by simp, ?_⟩
        intro x hx
        rcases List.mem_cons.mp hx with rfl | hx'
        · exact le_refl _
        · exact le_trans hc (hle x hx')
      · refine ⟨m, by simp [minRow, hm, hc], List.mem_cons_of_mem _ hmem, ?_⟩
        intro x hx
        rcases List.mem_cons.mp hx with rfl | hx'
        · omega
        · exact hle x hx'

lemma maxRow_spec (l : List KeyValueObject) :
    (l = [] ∧ maxRow l = none) ∨
    (∃ m, maxRow l = some m ∧ m ∈ l ∧ ∀ r ∈ l, r.primaryKey ≤ m.primaryKey) := by
  induction l with
  | nil => exact Or.inl ⟨rfl, rfl⟩
  | cons r rs ih =>
    right
    rcases ih with ⟨hnil, hnone⟩ | ⟨m, hm, hmem, hge⟩
    · subst hnil
      exact ⟨r, by simp [maxRow], by simp, by simp⟩
    · by_cases hc : m.primaryKey ≤ r.primaryKey
      · refine ⟨r, by simp [maxRow, hm, hc], by simp, ?_⟩
        intro x hx
        rcases List.mem_cons.mp hx with rfl | hx'
        · exact le_refl _
        · exact le_trans (hge x hx') hc
      · refine ⟨m, by simp [maxRow, hm, hc], List.mem_cons_of_mem _ hmem, ?_⟩
        intro x hx
        rcases List.mem_cons.mp hx with rfl | hx'
        · omega
        · exact hge x hx'

lemma minRow_eq_none {l : List KeyValueObject} : minRow l = none ↔ l = [] := by
  constructor
  · intro h
    rcases minRow_spec l with ⟨hnil, _⟩ | ⟨m, hm, _, _⟩
    · exact hnil
    · rw [hm] at h; cases h
  · intro h; subst h; rfl

lemma maxRow_eq_none {l : List KeyValueObject} : maxRow l = none ↔ l = [] := by
  constructor
  · intro h
    rcases maxRow_spec l with ⟨hnil, _⟩ | ⟨m, hm, _, _⟩
    · exact hnil
    · rw [hm] at h; cases h
  · intro h; subst h; rfl

lemma minRow_mem {l : List KeyValueObject} {m : KeyValueObject}
    (h : minRow l = some m) : m ∈ l := by
  rcases minRow_spec l with ⟨_, hnone⟩ | ⟨m2, hm2, hmem, _⟩
  · rw [hnone] at h; cases h
  · rw [hm2] at h; cases h; exact hmem

lemma minRow_le {l : List KeyValueObject} {m : KeyValueObject}
    (h : minRow l = some m) : ∀ r ∈ l, m.primaryKey ≤ r.primaryKey := by
  rcases minRow_spec l with ⟨_, hnone⟩ | ⟨m2, hm2, _, hle⟩
  · rw [hnone] at h; cases h
  · rw [hm2] at h; cases h; exact hle

lemma maxRow_mem {l : List KeyValueObject} {m : KeyValueObject}
    (h : maxRow l = some m) : m ∈ l := by
  rcases maxRow_spec l with ⟨_, hnone⟩ | ⟨m2, hm2, hmem, _⟩
  · rw [hnone] at h; cases h
  · rw [hm2] at h; cases h; exact hmem

lemma maxRow_ge {l : List KeyValueObject} {m : KeyValueObject}
    (h : maxRow l = some m) : ∀ r ∈ l, r.primaryKey ≤ m.primaryKey := by
  rcases maxRow_spec l with ⟨_, hnone⟩ | ⟨m2, hm2, _, hge⟩
  · rw [hnone] at h; cases h
  · rw [hm2] at h; cases h; exact hge

lemma cacheTable_items {α : Type} (c : IteratorCache α) (tid : Nat) :
    ((c.cacheTable tid).2).items = c.items := by
  unfold IteratorCache.cacheTable
  cases idxOfTable c.cachedTables tid <;> simp

lemma cacheTable_le_neg2 {α : Type} (c : IteratorCache α) (tid : Nat) :
    (c.cacheTable tid).1 ≤ -2 := by
  unfold IteratorCache.cacheTable
  cases idxOfTable c.cachedTables tid <;> simp [Int.ofNat]

lemma idxOfTable_append_self {l : List Nat} {tid : Nat}
    (h : idxOfTable l tid = none) :
    idxOfTable (l ++ [tid]) tid = some l.length := by
  induction l with
  | nil => simp [idxOfTable]
  | cons a rest ih =>
    simp only [idxOfTable] at h
    by_cases ha : a = tid
    · simp [ha] at h
    · have h2 : idxOfTable rest tid = none := by
        cases hcase : idxOfTable rest tid with
        | none => rfl
        | some i => rw [hcase] at h; simp [ha] at h
      simp only [List.cons_append, idxOfTable, ha, if_false, List.append_eq]
      rw [ih h2]
      simp

lemma cacheTable_getEnd {α : Type} (c : IteratorCache α) (tid : Nat) :
    ((c.cacheTable tid).2).getEndIteratorByTableId tid = some (c.cacheTable tid).1 := by
  unfold IteratorCache.cacheTable IteratorCache.getEndIteratorByTableId
  cases h : idxOfTable c.cachedTables tid with
  | some i => simp [h]
  | none => simp [idxOfTable_append_self h]

lemma cache_get_nonneg {α : Type} {c : IteratorCache α} {h : Int} {x : α}
    (hg : c.get h = .ok x) : 0 ≤ h := by
  unfold IteratorCache.get at hg
  by_cases h0 : h < 0
  · simp [h0] at hg
  · omega

lemma table_next_eq_none {t : Table} {k : Nat}
    (h : ∀ r ∈ t.rows, r.primaryKey ≤ k) : t.next k = none := by
  unfold Table.next
  rw [minRow_eq_none, List.filter_eq_nil_iff]
  intro r hr
  simpa using Nat.not_lt.mpr (h r hr)

lemma table_prev_eq_none {t : Table} {k : Nat}
    (h : ∀ r ∈ t.rows, k ≤ r.primaryKey) : t.prev k = none := by
  unfold Table.prev
  rw [maxRow_eq_none, List.filter_eq_nil_iff]
  intro r hr
  simpa using Nat.not_lt.mpr (h r hr)

lemma table_get_eq_none {t : Table} {k : Nat}
    (h : ∀ r ∈ t.rows, r.primaryKey ≠ k) : t.get k = none := by
  unfold Table.get
  rw [List.find?_eq_none]
  intro r hr
  simpa using h r hr

lemma table_lowerbound_eq_none {t : Table} {k : Nat}
    (h : ∀ r ∈ t.rows, r.primaryKey < k) : t.lowerbound k = none := by
  unfold Table.lowerbound
  rw [minRow_eq_none, List.filter_eq_nil_iff]
  intro r hr
  simpa using Nat.not_le.mpr (h r hr)

lemma table_upperbound_eq_none {t : Table} {k : Nat}
    (h : ∀ r ∈ t.rows, r.primaryKey ≤ k) : t.upperbound k = none := by
  unfold Table.upperbound
  rw [minRow_eq_none, List.filter_eq_nil_iff]
  intro r hr
  simpa using Nat.not_lt.mpr (h r hr)

/-- Claim C2 counterexample: on the raw bytes 0,…,31, the conversion the
code applies (`checksum256_from`) differs from the spec's described
transformation (swap the two 16-byte halves and reverse each half): the
code does not swap the halves. -/
theorem claim_C2_counterexample :
    checksum256_from (List.range 32) ≠ checksum256SpecSwapReverse (List.range 32) := by
  decide

/-- Claim C2 (amended): the idx256 sort bytes are obtained from the raw 32
bytes by reversing each 16-byte half in place — byte `i` of the result is
raw byte `15 − i` (`i < 16`) or `47 − i` (`16 ≤ i < 32`) — with the halves
kept in their original order; the write-back conversion is the identical
transformation, so it is an involution and writing a stored key back to the
guest buffer restores the raw 32 bytes. -/
theorem claim_C2_amended_reverse_halves (b : List Nat) (hb : b.length = 32) :
    checksum256_from b = checksum256ReverseHalvesInPlace b ∧
    checksum256_to (checksum256_from b) = b ∧
    checksum256_to b = checksum256_from b := by
  have hA : (b.take 16).length = 16 := by simp [hb]
  have hB : (b.drop 16).length = 16 := by simp [hb]
  have hBt : (b.drop 16).take 16 = b.drop 16 := List.take_of_length_le (by omega)
  refine ⟨?_, ?_, rfl⟩
  · unfold checksum256_from checksum256ReverseHalvesInPlace
    rw [hBt]
    apply List.ext_getElem
    · simp [hb]
    · intro i h1 h2
      have hi32 : i < 32 := by simpa using h2
      rw [List.getElem_map, List.getElem_range]
      by_cases hi : i < 16
      · rw [List.getElem_append_left (show i < (b.take 16).reverse.length by
          rw [List.length_reverse, hA]; omega)]
        rw [List.getElem_reverse, List.getElem_take,
          if_pos hi, List.getD_eq_getElem b 0 (show 15 - i < b.length by omega)]
        congr 1
        rw [hA]
      · rw [List.getElem_append_right (show (b.take 16).reverse.length ≤ i by
          rw [List.length_reverse, hA]; omega)]
        rw [List.getElem_reverse, List.getElem_drop,
          if_neg hi, List.getD_eq_getElem b 0 (show 47 - i < b.length by omega)]
        congr 1
        simp only [List.length_reverse, hA, hB]
        omega
  · have e1 : (checksum256_from b).take 16 = (b.take 16).reverse := by
      unfold checksum256_from
      exact List.take_left' (show (b.take 16).reverse.length = 16 by
        rw [List.length_reverse, hA])
    have e2 : (checksum256_from b).drop 16 = ((b.drop 16).take 16).reverse := by
      unfold checksum256_from
      exact List.drop_left' (show (b.take 16).reverse.length = 16 by
        rw [List.length_reverse, hA])
    unfold checksum256_to
    rw [e1, e2, hBt, List.reverse_reverse,
      List.take_of_length_le (show (b.drop 16).reverse.length ≤ 16 by
        rw [List.length_reverse, hB]),
      List.reverse_reverse]
    exact List.take_append_drop 16 b

/-- Claim C2 witness: the amended theorem instantiated at the concrete raw
bytes 0,…,31: the write-back of the converted key restores them. -/
theorem claim_C2_witness :
    checksum256_to (checksum256_from (List.range 32)) = List.range 32 :=
  (claim_C2_amended_reverse_halves (List.range 32) (by simp)).2.1

/-- Claim C7: `require_auth(name)` fails unless some entry of the current
Context's authorization list has actor `name` and permission `active` or
`owner`; `has_auth(name)` returns exactly that condition as a boolean
(being a total function it never throws). -/
theorem claim_C7_require_auth_has_auth (auths : List PermissionLevel) (name : Nat) :
    (require_auth auths name = .ok () ↔
      ∃ a ∈ auths, a.actor = name ∧ (a.permission = activeName ∨ a.permission = ownerName)) ∧
    (has_auth auths name = true ↔
      ∃ a ∈ auths, a.actor = name ∧ (a.permission = activeName ∨ a.permission = ownerName)) ∧
    ((∀ a ∈ auths, ¬(a.actor = name ∧ (a.permission = activeName ∨ a.permission = ownerName))) →
      require_auth auths name = .error "missing required authority") := by
  have key : hasAuthIn auths name = true ↔
      ∃ a ∈ auths, a.actor = name ∧ (a.permission = activeName ∨ a.permission = ownerName) := by
    unfold hasAuthIn
    rw [List.any_eq_true]
    constructor
    · rintro ⟨a, ha, hp⟩
      exact ⟨a, ha, by simpa using hp⟩
    · rintro ⟨a, ha, hp⟩
      exact ⟨a, ha, by simpa using hp⟩
  refine ⟨?_, key, ?_⟩
  · unfold require_auth
    constructor
    · intro h
      by_cases hb : hasAuthIn auths name = true
      · exact key.mp hb
      · rw [if_neg hb] at h
        cases h
    · intro hEx
      rw [if_pos (key.mpr hEx)]
  · intro hnone
    unfold require_auth
    rw [if_neg]
    intro hb
    rcases key.mp hb with ⟨a, ha, hcond⟩
    exact hnone a ha hcond

/-- Claim C7 witness: a matching active entry authorizes actor 5; the empty
authorization list fails. -/
theorem claim_C7_witness :
    require_auth [⟨5, activeName⟩] 5 = .ok () ∧
    require_auth [] 5 = .error "missing required authority" :=
  ⟨(claim_C7_require_auth_has_auth [⟨5, activeName⟩] 5).1.mpr
      ⟨⟨5, activeName⟩, by simp, rfl, Or.inl rfl⟩,
   (claim_C7_require_auth_has_auth [] 5).2.2 (by simp)⟩

/-- Claim C8: `get_code_hash` produces `struct_version = min(0, v)` — zero
for every non-negative requested version, the input itself when negative —
and a `code_hash` equal to the SHA-256 of the account's WASM bytes, or 32
zero bytes when the account is unknown or has no code. -/
theorem claim_C8_get_code_hash (sha256 : List Nat → List Nat) (bc : Blockchain)
    (name : Nat) (v : Int) :
    (get_code_hash sha256 bc name v).struct_version = min 0 v ∧
    (0 ≤ v → (get_code_hash sha256 bc name v).struct_version = 0) ∧
    (v < 0 → (get_code_hash sha256 bc name v).struct_version = v) ∧
    (∀ a w, bc.getAccount name = some a → a.wasm = some w →
      (get_code_hash sha256 bc name v).code_hash = sha256 w) ∧
    ((bc.getAccount name = none ∨ ∃ a, bc.getAccount name = some a ∧ a.wasm = none) →
      (get_code_hash sha256 bc name v).code_hash = List.replicate 32 0) := by
  refine ⟨rfl, ?_, ?_, ?_, ?_⟩
  · intro hv
    show min 0 v = 0
    omega
  · intro hv
    show min 0 v = v
    omega
  · intro a w ha hw
    unfold get_code_hash
    simp [ha, hw]
  · intro hcase
    unfold get_code_hash
    rcases hcase with hnone | ⟨a, ha, hw⟩
    · simp [hnone]
    · simp [ha, hw]

/-- Claim C8 witness: account 7 carries WASM bytes `[0, 1]` and the
requested version −2 passes through. -/
theorem claim_C8_witness :
    (get_code_hash (fun _ => List.replicate 32 1)
      ⟨[⟨7, true, [], some [0, 1], 3, 0, []⟩], []⟩ 7 (-2)).struct_version = -2 ∧
    (get_code_hash (fun _ => List.replicate 32 1)
      ⟨[⟨7, true, [], some [0, 1], 3, 0, []⟩], []⟩ 7 (-2)).code_hash = List.replicate 32 1 :=
  ⟨(claim_C8_get_code_hash (fun _ => List.replicate 32 1)
      ⟨[⟨7, true, [], some [0, 1], 3, 0, []⟩], []⟩ 7 (-2)).2.2.1 (by decide),
   (claim_C8_get_code_hash (fun _ => List.replicate 32 1)
      ⟨[⟨7, true, [], some [0, 1], 3, 0, []⟩], []⟩ 7 (-2)).2.2.2.1
      ⟨7, true, [], some [0, 1], 3, 0, []⟩ [0, 1] (by rfl) rfl⟩

/-- Claim C1: `alt_bn128_pair` returns −1 when the external pairing
primitive rejects the input or yields a result that is not 32 bytes;
on a 32-byte result it returns 1 exactly when the pairing product is the
identity (last byte zero, the success encoding the source assumes) and 0
otherwise. -/
theorem claim_C1_alt_bn128_pair (pairing : List Nat → Option (List Nat)) (input : List Nat) :
    (pairing input = none → alt_bn128_pair pairing input = -1) ∧
    (∀ r, pairing input = some r → r.length ≠ 32 → alt_bn128_pair pairing input = -1) ∧
    (∀ r, pairing input = some r → r.length = 32 →
      ((pairingIsIdentity r = true → alt_bn128_pair pairing input = 1) ∧
       (pairingIsIdentity r = false → alt_bn128_pair pairing input = 0))) := by
  refine ⟨?_, ?_, ?_⟩
  · intro h
    unfold alt_bn128_pair
    rw [h]
  · intro r hr hl
    unfold alt_bn128_pair
    rw [hr]
    simp [hl]
  · intro r hr hl
    constructor
    · intro hp
      have hp2 : r.getD 31 0 = 0 := by
        unfold pairingIsIdentity at hp
        simpa using hp
      unfold alt_bn128_pair
      rw [hr]
      show (if r.length ≠ 32 then (-1 : Int) else if r.getD 31 0 = 0 then 1 else 0) = 1
      rw [if_neg (show ¬r.length ≠ 32 by omega), if_pos hp2]
    · intro hp
      have hp2 : ¬r.getD 31 0 = 0 := by
        unfold pairingIsIdentity at hp
        simpa using hp
      unfold alt_bn128_pair
      rw [hr]
      show (if r.length ≠ 32 then (-1 : Int) else if r.getD 31 0 = 0 then 1 else 0) = 0
      rw [if_neg (show ¬r.length ≠ 32 by omega), if_neg hp2]

/-- Claim C1 witness: a 32-byte result ending in zero yields 1; a rejected
input yields −1. -/
theorem claim_C1_witness :
    alt_bn128_pair (fun _ => some (List.replicate 32 0)) [] = 1 ∧
    alt_bn128_pair (fun _ => none) [] = -1 :=
  ⟨((claim_C1_alt_bn128_pair (fun _ => some (List.replicate 32 0)) []).2.2
      (List.replicate 32 0) rfl (by simp)).1 (by decide),
   (claim_C1_alt_bn128_pair (fun _ => none) []).1 rfl⟩

/-- Claim C10: once the authorization loop has passed, `VM.apply` leaves
all five per-action iterator caches freshly emptied on every exit path of
the guest `apply` export — normal return, assertion error, and the
`eosio_exit` sentinel alike — because `finalize` runs in the `finally`
block; every previously issued handle and end sentinel is thereby
invalidated, and the guest outcome is propagated unchanged. -/
theorem claim_C10_apply_finalizes (sat : Nat → Nat → Bool) (bc : Blockchain)
    (vm : VMCaches) (ctx : Context) (guest : GuestOutcome)
    (hauth : authCheck sat bc ctx ctx.authorization = .ok ()) :
    (VM.apply sat bc vm ctx guest).1 = finalizeCaches vm ∧
    ((VM.apply sat bc vm ctx guest).1.kvCache = IteratorCache.empty ∧
     (VM.apply sat bc vm ctx guest).1.idx64 = IteratorCache.empty ∧
     (VM.apply sat bc vm ctx guest).1.idx128 = IteratorCache.empty ∧
     (VM.apply sat bc vm ctx guest).1.idx256 = IteratorCache.empty ∧
     (VM.apply sat bc vm ctx guest).1.idxDouble = IteratorCache.empty) ∧
    (∀ h : Int, ∃ m, (VM.apply sat bc vm ctx guest).1.kvCache.get h = .error m) ∧
    (∀ e : Int, (VM.apply sat bc vm ctx guest).1.kvCache.findTableByEndIterator e = none) ∧
    ((guest = .normal → (VM.apply sat bc vm ctx guest).2 = .ok) ∧
     (∀ m, guest = .assertFail m → (VM.apply sat bc vm ctx guest).2 = .errored m) ∧
     (∀ c, guest = .exitSentinel c → (VM.apply sat bc vm ctx guest).2 = .exited c)) := by
  have happ : VM.apply sat bc vm ctx guest =
      (finalizeCaches vm,
        match guest with
        | .normal => ApplyOutcome.ok
        | .assertFail m => ApplyOutcome.errored m
        | .exitSentinel c => ApplyOutcome.exited c) := by
    unfold VM.apply
    rw [hauth]
    cases guest <;> rfl
  rw [happ]
  refine ⟨rfl, ⟨rfl, rfl, rfl, rfl, rfl⟩, ?_, ?_, ?_, ?_, ?_⟩
  · intro h
    unfold finalizeCaches IteratorCache.empty IteratorCache.get
    by_cases h0 : h < 0
    · exact ⟨"invalid iterator", by simp [h0]⟩
    · exact ⟨"invalid iterator", by simp [h0]⟩
  · intro e
    unfold finalizeCaches IteratorCache.empty IteratorCache.findTableByEndIterator
    by_cases he : e < -1 <;> simp [he]
  · intro hg
    subst hg
    rfl
  · intro m hg
    subst hg
    rfl
  · intro c hg
    subst hg
    rfl

/-- Claim C10 witness: with an empty authorization list the loop passes,
and on the `eosio_exit` path the (initially non-empty) primary cache comes
back empty and the exit code is propagated. -/
theorem claim_C10_witness :
    (VM.apply (fun _ _ => true) ⟨[], []⟩
      ⟨⟨[some ⟨0, 1, 2, [3]⟩], [4]⟩, .empty, .empty, .empty, .empty⟩
      ⟨0, 1, 1, 2, [], [], 0, [], []⟩ (.exitSentinel 0)).1.kvCache = IteratorCache.empty ∧
    (VM.apply (fun _ _ => true) ⟨[], []⟩
      ⟨⟨[some ⟨0, 1, 2, [3]⟩], [4]⟩, .empty, .empty, .empty, .empty⟩
      ⟨0, 1, 1, 2, [], [], 0, [], []⟩ (.exitSentinel 0)).2 = .exited 0 :=
  ⟨(claim_C10_apply_finalizes (fun _ _ => true) ⟨[], []⟩
      ⟨⟨[some ⟨0, 1, 2, [3]⟩], [4]⟩, .empty, .empty, .empty, .empty⟩
      ⟨0, 1, 1, 2, [], [], 0, [], []⟩ (.exitSentinel 0) rfl).2.1.1,
   (claim_C10_apply_finalizes (fun _ _ => true) ⟨[], []⟩
      ⟨⟨[some ⟨0, 1, 2, [3]⟩], [4]⟩, .empty, .empty, .empty, .empty⟩
      ⟨0, 1, 1, 2, [], [], 0, [], []⟩ (.exitSentinel 0) rfl).2.2.2.2.2.2 0 rfl⟩

lemma require_recipient_traced_some {bc : Blockchain} {ctx : Context} {n : Nat}
    {a : Account} (ha : bc.getAccount n = some a) :
    require_recipient_traced bc ctx n =
      if hasNotificationTrace bc a.name ctx.actionOrdinal then .ok (bc, ctx)
      else if !a.isContract then .ok (bc, ctx)
      else if a.name == ctx.receiver then .ok (bc, ctx)
      else .ok
        ({ bc with actionTraces := bc.actionTraces ++ [⟨true, a.name, ctx.actionOrdinal⟩] },
         { ctx with notificationsQueue :=
            ctx.notificationsQueue ++ [notificationChild ctx a.name] }) := by
  unfold require_recipient_traced
  rw [ha]

lemma require_recipient_some {bc : Blockchain} {ctx : Context} {n : Nat}
    {a : Account} (ha : bc.getAccount n = some a) :
    require_recipient bc ctx n =
      if hasNotificationTrace bc a.name ctx.actionOrdinal then .ok ctx
      else if !a.isContract then .ok ctx
      else if a.name == ctx.receiver then .ok ctx
      else .ok { ctx with notificationsQueue :=
        ctx.notificationsQueue ++ [notificationChild ctx a.name] } := by
  unfold require_recipient
  rw [ha]

lemma require_recipient_cases (bc : Blockchain) (ctx : Context) (n : Nat) :
    (bc.getAccount n = none ∧
      require_recipient_traced bc ctx n = .error "account missing for require_recipient" ∧
      require_recipient bc ctx n = .error "account missing for require_recipient") ∨
    (∃ a, bc.getAccount n = some a ∧
      (((hasNotificationTrace bc a.name ctx.actionOrdinal = true ∨
          a.isContract = false ∨ a.name = ctx.receiver) ∧
        require_recipient_traced bc ctx n = .ok (bc, ctx) ∧
        require_recipient bc ctx n = .ok ctx) ∨
       (hasNotificationTrace bc a.name ctx.actionOrdinal = false ∧
        a.isContract = true ∧ a.name ≠ ctx.receiver ∧
        require_recipient_traced bc ctx n = .ok
          ({ bc with actionTraces := bc.actionTraces ++ [⟨true, a.name, ctx.actionOrdinal⟩] },
           { ctx with notificationsQueue :=
              ctx.notificationsQueue ++ [notificationChild ctx a.name] }) ∧
        require_recipient bc ctx n = .ok
          { ctx with notificationsQueue :=
              ctx.notificationsQueue ++ [notificationChild ctx a.name] }))) := by
  cases ha : bc.getAccount n with
  | none =>
    refine Or.inl ⟨rfl, ?_, ?_⟩
    · unfold require_recipient_traced
      rw [ha]
    · unfold require_recipient
      rw [ha]
  | some a =>
    right
    refine ⟨a, rfl, ?_⟩
    rw [require_recipient_traced_some ha, require_recipient_some ha]
    by_cases h1 : hasNotificationTrace bc a.name ctx.actionOrdinal = true
    · rw [if_pos h1, if_pos h1]
      exact Or.inl ⟨Or.inl h1, rfl, rfl⟩
    · rw [if_neg h1, if_neg h1]
      by_cases h2 : a.isContract = true
      · have h2n : ¬(!a.isContract) = true := by simp [h2]
        rw [if_neg h2n, if_neg h2n]
        by_cases h3 : (a.name == ctx.receiver) = true
        · rw [if_pos h3, if_pos h3]
          exact Or.inl ⟨Or.inr (Or.inr (beq_iff_eq.mp h3)), rfl, rfl⟩
        · rw [if_neg h3, if_neg h3]
          exact Or.inr ⟨by simpa using h1, h2, by simpa using h3, rfl, rfl⟩
      · have h2f : a.isContract = false := by simpa using h2
        have h2p : (!a.isContract) = true := by simp [h2f]
        rw [if_pos h2p, if_pos h2p]
        exact Or.inl ⟨Or.inr (Or.inl h2f), rfl, rfl⟩

/-- Claim C6: `require_recipient` enqueues at most one notification per
(action_ordinal, recipient) — the Blockchain's trace of an already enqueued
notification makes a repeated call a no-op; self-notification and
non-contract recipients are skipped with no error and no state change; any
enqueued notification child is a single entry appended to the notifications
queue whose first_receiver is the current Context's first_receiver when
that Context is a notification and the current receiver otherwise. The
untraced `require_recipient` (the verbatim `vm.ts` transition) agrees with
the spec-modelled traced version on the Context it produces. -/
theorem claim_C6_require_recipient (bc : Blockchain) (ctx : Context) (n : Nat) :
    (∀ bc2 ctx2, require_recipient_traced bc ctx n = .ok (bc2, ctx2) →
      require_recipient bc ctx n = .ok ctx2) ∧
    (∀ bc2 ctx2, require_recipient_traced bc ctx n = .ok (bc2, ctx2) →
      require_recipient_traced bc2 ctx2 n = .ok (bc2, ctx2)) ∧
    (∀ a, bc.getAccount n = some a → (a.isContract = false ∨ a.name = ctx.receiver) →
      require_recipient_traced bc ctx n = .ok (bc, ctx)) ∧
    (∀ bc2 ctx2, require_recipient_traced bc ctx n = .ok (bc2, ctx2) →
      ctx2.notificationsQueue = ctx.notificationsQueue ∨
      ∃ a, bc.getAccount n = some a ∧
        ctx2.notificationsQueue = ctx.notificationsQueue ++ [notificationChild ctx a.name] ∧
        (notificationChild ctx a.name).firstReceiver =
          (if ctx.isNotification then ctx.firstReceiver else ctx.receiver) ∧
        (notificationChild ctx a.name).receiver = a.name ∧
        (notificationChild ctx a.name).actionOrdinal = some ctx.actionOrdinal) := by
  refine ⟨?_, ?_, ?_, ?_⟩
  · intro bc2 ctx2 h
    rcases require_recipient_cases bc ctx n with ⟨_, he, _⟩ | ⟨a, _, ⟨_, ht, hu⟩ | ⟨_, _, _, ht, hu⟩⟩
    · rw [he] at h; cases h
    · rw [ht] at h
      simp only [Except.ok.injEq, Prod.mk.injEq] at h
      rw [hu, h.2]
    · rw [ht] at h
      simp only [Except.ok.injEq, Prod.mk.injEq] at h
      rw [hu, h.2]
  · intro bc2 ctx2 h
    rcases require_recipient_cases bc ctx n with ⟨_, he, _⟩ | ⟨a, ha, ⟨_, ht, _⟩ | ⟨_, _, _, ht, _⟩⟩
    · rw [he] at h; cases h
    · rw [ht] at h
      simp only [Except.ok.injEq, Prod.mk.injEq] at h
      rw [← h.1, ← h.2, ht]
    · rw [ht] at h
      simp only [Except.ok.injEq, Prod.mk.injEq] at h
      obtain ⟨hbc2, hctx2⟩ := h
      have ha2 : bc2.getAccount n = some a := by rw [← hbc2]; exact ha
      have hord : ctx2.actionOrdinal = ctx.actionOrdinal := by rw [← hctx2]
      have htr : hasNotificationTrace bc2 a.name ctx2.actionOrdinal = true := by
        rw [← hbc2, hord]
        unfold hasNotificationTrace
        rw [List.any_append]
        simp [hasNotificationTrace]
      rcases require_recipient_cases bc2 ctx2 n with ⟨hn, _, _⟩ | ⟨a2, ha3, ⟨_, ht2, _⟩ | ⟨hf, _, _, _, _⟩⟩
      · rw [ha2] at hn; cases hn
      · exact ht2
      · rw [ha2] at ha3
        cases ha3
        rw [htr] at hf
        cases hf
  · intro a ha hcase
    rcases require_recipient_cases bc ctx n with ⟨hn, _, _⟩ | ⟨a2, ha2, ⟨_, ht, _⟩ | ⟨_, hc, hs, _, _⟩⟩
    · rw [ha] at hn; cases hn
    · exact ht
    · rw [ha] at ha2
      cases ha2
      rcases hcase with hcf | hself
      · rw [hc] at hcf; cases hcf
      · exact absurd hself hs
  · intro bc2 ctx2 h
    rcases require_recipient_cases bc ctx n with ⟨_, he, _⟩ | ⟨a, ha, ⟨_, ht, _⟩ | ⟨_, _, _, ht, _⟩⟩
    · rw [he] at h; cases h
    · rw [ht] at h
      simp only [Except.ok.injEq, Prod.mk.injEq] at h
      exact Or.inl (by rw [← h.2])
    · rw [ht] at h
      simp only [Except.ok.injEq, Prod.mk.injEq] at h
      refine Or.inr ⟨a, ha, by rw [← h.2], rfl, rfl, rfl⟩

/-- Claim C6 witness: receiver 1 notifying contract account 7 (fresh state:
no traces) enqueues exactly one child inheriting first_receiver 1, and a
second identical call is a no-op. -/
theorem claim_C6_witness :
    require_recipient ⟨[⟨7, true, [], none, 0, 0, []⟩], []⟩ ⟨0, 1, 1, 2, [5], [], 3, [], []⟩ 7 =
      .ok ⟨0, 1, 1, 2, [5], [], 3, [],
        [⟨0, 7, 1, 2, [5], [], some 3⟩]⟩ ∧
    require_recipient_traced
      ⟨[⟨7, true, [], none, 0, 0, []⟩], [⟨true, 7, 3⟩]⟩
      ⟨0, 1, 1, 2, [5], [], 3, [], [⟨0, 7, 1, 2, [5], [], some 3⟩]⟩ 7 =
      .ok (⟨[⟨7, true, [], none, 0, 0, []⟩], [⟨true, 7, 3⟩]⟩,
        ⟨0, 1, 1, 2, [5], [], 3, [], [⟨0, 7, 1, 2, [5], [], some 3⟩]⟩) :=
  ⟨(claim_C6_require_recipient ⟨[⟨7, true, [], none, 0, 0, []⟩], []⟩
      ⟨0, 1, 1, 2, [5], [], 3, [], []⟩ 7).1
      ⟨[⟨7, true, [], none, 0, 0, []⟩], [⟨true, 7, 3⟩]⟩
      ⟨0, 1, 1, 2, [5], [], 3, [], [⟨0, 7, 1, 2, [5], [], some 3⟩]⟩ (by rfl),
   (claim_C6_require_recipient ⟨[⟨7, true, [], none, 0, 0, []⟩], []⟩
      ⟨0, 1, 1, 2, [5], [], 3, [], []⟩ 7).2.1
      ⟨[⟨7, true, [], none, 0, 0, []⟩], [⟨true, 7, 3⟩]⟩
      ⟨0, 1, 1, 2, [5], [], 3, [], [⟨0, 7, 1, 2, [5], [], some 3⟩]⟩ (by rfl)⟩

lemma send_inline_some {bc : Blockchain} {act : ActionRecord} {c : Account}
    (hc : bc.getAccount act.account = some c) (ctx : Context) :
    send_inline bc ctx act =
      if !c.isContract then .error "contract is missing for inline action"
      else if c.actionNames.contains act.name then
        .ok { ctx with actionsQueue := ctx.actionsQueue ++ [{
          sender := ctx.receiver
          receiver := act.account
          firstReceiver := act.account
          action := act.name
          data := act.data
          authorization := act.authorization
          actionOrdinal := none }] }
      else .ok ctx := by
  unfold send_inline
  rw [hc]

/-- Claim C4 counterexample: account 7 exists and carries a contract whose
ABI declares no actions; `send_inline` targeting action 9 on it neither
fails nor enqueues — it returns successfully with the actions queue still
empty, so the check of the target's ABI is a silent skip, not a
verification failure, and the enqueue is conditional. -/
theorem claim_C4_counterexample :
    send_inline ⟨[⟨7, true, [], none, 0, 0, []⟩], []⟩
      ⟨0, 1, 1, 2, [], [], 0, [], []⟩ ⟨7, 9, [], []⟩ =
      .ok ⟨0, 1, 1, 2, [], [], 0, [], []⟩ ∧
    (⟨0, 1, 1, 2, [], [], 0, [], []⟩ : Context).actionsQueue = [] := by
  exact ⟨rfl, rfl⟩

/-- Claim C4 (amended): `send_inline` on a decoded Action fails when the
target account is missing or carries no contract; when the target's ABI
declares the action it enqueues exactly one child Context on the actions
queue with sender = current receiver and receiver = first_receiver =
target; when the target exists but does not declare the action, the call
does nothing, without error. -/
theorem claim_C4_send_inline_amended (bc : Blockchain) (ctx : Context) (act : ActionRecord) :
    ((bc.getAccount act.account = none ∨
      ∃ c, bc.getAccount act.account = some c ∧ c.isContract = false) →
      send_inline bc ctx act = .error "contract is missing for inline action") ∧
    (∀ c, bc.getAccount act.account = some c → c.isContract = true →
      act.name ∈ c.actionNames →
      send_inline bc ctx act = .ok { ctx with actionsQueue := ctx.actionsQueue ++ [{
        sender := ctx.receiver
        receiver := act.account
        firstReceiver := act.account
        action := act.name
        data := act.data
        authorization := act.authorization
        actionOrdinal := none }] }) ∧
    (∀ c, bc.getAccount act.account = some c → c.isContract = true →
      act.name ∉ c.actionNames →
      send_inline bc ctx act = .ok ctx) := by
  refine ⟨?_, ?_, ?_⟩
  · intro hcase
    rcases hcase with hnone | ⟨c, hc, hflag⟩
    · unfold send_inline
      rw [hnone]
    · rw [send_inline_some hc]
      rw [if_pos (by simp [hflag])]
  · intro c hc hflag hmem
    rw [send_inline_some hc]
    rw [if_neg (by simp [hflag]), if_pos (by simp [hmem])]
  · intro c hc hflag hmem
    rw [send_inline_some hc]
    rw [if_neg (by simp [hflag]), if_neg (by simp [hmem])]

/-- Claim C4 witness: contract account 7 declares action 9; the inline send
from receiver 1 enqueues the child with sender 1 and receiver =
first_receiver = 7. -/
theorem claim_C4_witness :
    send_inline ⟨[⟨7, true, [9], none, 0, 0, []⟩], []⟩
      ⟨0, 1, 1, 2, [], [], 0, [], []⟩ ⟨7, 9, [4], []⟩ =
      .ok ⟨0, 1, 1, 2, [], [], 0, [⟨1, 7, 7, 9, [4], [], none⟩], []⟩ :=
  (claim_C4_send_inline_amended ⟨[⟨7, true, [9], none, 0, 0, []⟩], []⟩
      ⟨0, 1, 1, 2, [], [], 0, [], []⟩ ⟨7, 9, [4], []⟩).2.1
    ⟨7, true, [9], none, 0, 0, []⟩ (by rfl) rfl (by simp)

lemma find?_map_replace (l : List Table) (p : Table → Bool) (tab tnew : Table)
    (hf : l.find? p = some tab) (hnew : p tnew = true) :
    (l.map (fun u => if u.id == tab.id then tnew else u)).find? p = some tnew := by
  induction l with
  | nil => cases hf
  | cons u us ih =>
    by_cases hpu : p u = true
    · rw [List.find?_cons_of_pos _ hpu] at hf
      cases hf
      rw [List.map_cons, if_pos (show (tab.id == tab.id) = true by simp),
        List.find?_cons_of_pos _ hnew]
    · rw [List.find?_cons_of_neg _ hpu] at hf
      simp only [List.map_cons]
      by_cases hid : (u.id == tab.id) = true
      · rw [if_pos hid, List.find?_cons_of_pos _ hnew]
      · rw [if_neg hid, List.find?_cons_of_neg _ hpu]
        exact ih hf

lemma find?_map_append_replace (l : List Table) (p : Table → Bool) (t0 tnew : Table)
    (hf : l.find? p = none) (hnew : p tnew = true) :
    ((l ++ [t0]).map (fun u => if u.id == t0.id then tnew else u)).find? p = some tnew := by
  induction l with
  | nil =>
    simp only [List.nil_append, List.map_cons, List.map_nil]
    rw [show (if t0.id == t0.id then tnew else t0) = tnew by simp]
    rw [List.find?_cons_of_pos _ hnew]
  | cons u us ih =>
    have hpu : ¬p u = true := List.find?_eq_none.mp hf u (by simp)
    have hf2 : us.find? p = none := by
      rw [List.find?_eq_none] at hf ⊢
      intro x hx
      exact hf x (List.mem_cons_of_mem _ hx)
    simp only [List.cons_append, List.map_cons]
    by_cases hid : (u.id == t0.id) = true
    · rw [if_pos hid, List.find?_cons_of_pos _ hnew]
    · rw [if_neg hid, List.find?_cons_of_neg _ hpu]
      exact ih hf2

lemma store_find_update_setRow {s : Store} {code scope tn : Nat} {tab : Table}
    (hf : s.findTable code scope tn = some tab) (kv : KeyValueObject) :
    (s.updateTable (tab.setRow kv)).findTable code scope tn = some (tab.setRow kv) := by
  unfold Store.findTable at hf
  have hptab := List.find?_some hf
  have hnew : (fun t : Table => t.code == code && t.scope == scope && t.tableName == tn)
      (tab.setRow kv) = true := by
    simp only [Table.setRow]
    exact hptab
  unfold Store.findTable Store.updateTable
  show List.find? _
      (List.map (fun u => if u.id == (tab.setRow kv).id then tab.setRow kv else u) s.tables) =
        some (tab.setRow kv)
  have hid : (tab.setRow kv).id = tab.id := rfl
  simp only [hid]
  exact find?_map_replace s.tables _ tab (tab.setRow kv) hf hnew

lemma table_has_of_mem {t : Table} {r : KeyValueObject} {id : Nat}
    (hr : r ∈ t.rows) (hpk : r.primaryKey = id) : t.has id = true := by
  unfold Table.has Table.get
  rw [List.find?_isSome]
  exact ⟨r, hr, by simp [hpk]⟩

lemma table_has_eq_false {t : Table} {id : Nat}
    (h : ∀ r ∈ t.rows, r.primaryKey ≠ id) : t.has id = false := by
  unfold Table.has
  rw [show t.get id = none from table_get_eq_none h]
  rfl

lemma findOrCreateTable_of_some {st : DbState} {scope tn payer : Nat} {tab : Table}
    (hf : st.store.findTable st.receiver scope tn = some tab) :
    findOrCreateTable st scope tn payer = (tab, st.store) := by
  unfold findOrCreateTable
  rw [hf]

lemma findOrCreateTable_of_none {st : DbState} {scope tn payer : Nat}
    (hf : st.store.findTable st.receiver scope tn = none) :
    findOrCreateTable st scope tn payer =
      (⟨st.store.tableIdSeq, st.receiver, scope, tn, payer, []⟩,
       ⟨st.store.tables ++ [⟨st.store.tableIdSeq, st.receiver, scope, tn, payer, []⟩],
        st.store.tableIdSeq + 1⟩) := by
  unfold findOrCreateTable Store.createTable
  rw [hf]

lemma db_store_i64_eq {st : DbState} {scope tn payer id : Nat} {data : List Nat}
    {tab : Table} {s2 : Store}
    (hf : findOrCreateTable st scope tn payer = (tab, s2)) :
    db_store_i64 st scope tn payer id data =
      if payer = 0 then
        ({ st with store := s2 }, .error "must specify a valid account to pay for new record")
      else if tab.has id then
        ({ st with store := s2 }, .error "key uniqueness violation")
      else
        ({ st with
            store := s2.updateTable (tab.setRow ⟨tab.id, id, payer, data⟩),
            kvCache := (((st.kvCache.cacheTable tab.id).2).add ⟨tab.id, id, payer, data⟩).2 },
         .ok (((st.kvCache.cacheTable tab.id).2).add ⟨tab.id, id, payer, data⟩).1) := by
  unfold db_store_i64
  rw [hf]

lemma store_find_create_update {s : Store} {code scope tn : Nat} {t0 : Table}
    (kv : KeyValueObject) (hf : s.findTable code scope tn = none)
    (hc : t0.code = code) (hs : t0.scope = scope) (ht : t0.tableName = tn) :
    ((Store.mk (s.tables ++ [t0]) (s.tableIdSeq + 1)).updateTable (t0.setRow kv)).findTable
      code scope tn = some (t0.setRow kv) := by
  unfold Store.findTable at hf
  unfold Store.findTable Store.updateTable
  have hnew : (fun t : Table => t.code == code && t.scope == scope && t.tableName == tn)
      (t0.setRow kv) = true := by
    simp [Table.setRow, hc, hs, ht]
  have hid : (t0.setRow kv).id = t0.id := rfl
  show List.find? _
      (List.map (fun u => if u.id == (t0.setRow kv).id then t0.setRow kv else u)
        (s.tables ++ [t0])) = some (t0.setRow kv)
  simp only [hid]
  exact find?_map_append_replace s.tables _ t0 (t0.setRow kv) hf hnew

/-- Claim C5: `db_store_i64` fails when the payer is zero and fails when a
row with primary key `id` is already present in the
(current receiver, scope, table) table; otherwise it creates the table
lazily when absent, inserts the row with the given payer and value, and
returns a fresh non-negative handle — the next arena index of the
per-action primary cache. -/
theorem claim_C5_db_store_i64 (st : DbState) (scope tableName payer id : Nat)
    (data : List Nat) :
    ((payer = 0 ∨ ∃ tab, st.store.findTable st.receiver scope tableName = some tab ∧
        ∃ r ∈ tab.rows, r.primaryKey = id) →
      ∃ m, (db_store_i64 st scope tableName payer id data).2 = .error m) ∧
    (payer ≠ 0 →
      (∀ tab, st.store.findTable st.receiver scope tableName = some tab →
        ∀ r ∈ tab.rows, r.primaryKey ≠ id) →
      ∃ h st2, db_store_i64 st scope tableName payer id data = (st2, .ok h) ∧
        h = Int.ofNat st.kvCache.items.length ∧ 0 ≤ h ∧
        ∃ tab2, st2.store.findTable st.receiver scope tableName = some tab2 ∧
          ∃ r ∈ tab2.rows, r.primaryKey = id ∧ r.payer = payer ∧ r.value = data) := by
  constructor
  · intro hcase
    by_cases hp : payer = 0
    · cases hfind : st.store.findTable st.receiver scope tableName with
      | none =>
        rw [db_store_i64_eq (findOrCreateTable_of_none hfind), if_pos hp]
        exact ⟨_, rfl⟩
      | some tab =>
        rw [db_store_i64_eq (findOrCreateTable_of_some hfind), if_pos hp]
        exact ⟨_, rfl⟩
    · rcases hcase with hp0 | ⟨tab, hfind, r, hr, hpk⟩
      · exact absurd hp0 hp
      · rw [db_store_i64_eq (findOrCreateTable_of_some hfind), if_neg hp,
          if_pos (table_has_of_mem hr hpk)]
        exact ⟨_, rfl⟩
  · intro hp hnodup
    cases hfind : st.store.findTable st.receiver scope tableName with
    | none =>
      rw [db_store_i64_eq (findOrCreateTable_of_none hfind), if_neg hp,
        if_neg (show ¬(Table.has ⟨st.store.tableIdSeq, st.receiver, scope, tableName,
          payer, []⟩ id = true) by simp [Table.has, Table.get])]
      refine ⟨_, _, rfl, ?_, ?_, ?_⟩
      · simp only [IteratorCache.add]
        rw [cacheTable_items]
      · show (0 : Int) ≤ Int.ofNat _
        exact Int.ofNat_nonneg _
      · refine ⟨_, store_find_create_update _ hfind rfl rfl rfl, ?_⟩
        exact ⟨⟨st.store.tableIdSeq, id, payer, data⟩, by simp [Table.setRow], rfl, rfl, rfl⟩
    | some tab =>
      have hhas : Table.has tab id = false := table_has_eq_false (hnodup tab hfind)
      rw [db_store_i64_eq (findOrCreateTable_of_some hfind), if_neg hp,
        if_neg (show ¬(Table.has tab id = true) by simp [hhas])]
      refine ⟨_, _, rfl, ?_, ?_, ?_⟩
      · show (Int.ofNat (((st.kvCache.cacheTable tab.id).2).items.length)) = _
        rw [cacheTable_items]
      · show (0 : Int) ≤ Int.ofNat _
        exact Int.ofNat_nonneg _
      · refine ⟨_, store_find_update_setRow hfind _, ?_⟩
        exact ⟨⟨tab.id, id, payer, data⟩, by simp [Table.setRow], rfl, rfl, rfl⟩

/-- Claim C5 witness: inserting key 5 with payer 4 into an empty store
succeeds with the fresh handle 0 and the row is present afterwards. -/
theorem claim_C5_witness :
    ∃ h st2, db_store_i64 ⟨⟨[], 0⟩, ⟨[], []⟩, 1⟩ 2 3 4 5 [6] = (st2, .ok h) ∧
      h = Int.ofNat 0 ∧ 0 ≤ h ∧
      ∃ tab2, st2.store.findTable 1 2 3 = some tab2 ∧
        ∃ r ∈ tab2.rows, r.primaryKey = 5 ∧ r.payer = 4 ∧ r.value = [6] :=
  (claim_C5_db_store_i64 ⟨⟨[], 0⟩, ⟨[], []⟩, 1⟩ 2 3 4 5 [6]).2 (by decide)
    (fun tab htab => nomatch htab)

/-- Claim C9: calling `db_store_i64` with `payer = 0` on a not-yet-existing
(current receiver, scope, table) triple fails, yet the lazy find-or-create
ran before the payer assertion, so the empty table has been created and is
still present in the Store after the failure — the intrinsic does not leave
the Store unchanged on this error. -/
theorem claim_C9_table_created_on_zero_payer (st : DbState) (scope tableName id : Nat)
    (data : List Nat)
    (hf : st.store.findTable st.receiver scope tableName = none) :
    (∃ m, (db_store_i64 st scope tableName 0 id data).2 = .error m) ∧
    (∃ tab, (db_store_i64 st scope tableName 0 id data).1.store.findTable
        st.receiver scope tableName = some tab ∧ tab.rows = []) := by
  rw [db_store_i64_eq (findOrCreateTable_of_none hf), if_pos rfl]
  refine ⟨⟨_, rfl⟩, ⟨st.store.tableIdSeq, st.receiver, scope, tableName, 0, []⟩, ?_, rfl⟩
  show (Store.mk (st.store.tables ++ [⟨st.store.tableIdSeq, st.receiver, scope,
      tableName, 0, []⟩]) (st.store.tableIdSeq + 1)).findTable
      st.receiver scope tableName = _
  unfold Store.findTable at hf ⊢
  have hp0 : (fun t : Table => t.code == st.receiver && t.scope == scope &&
      t.tableName == tableName)
      (⟨st.store.tableIdSeq, st.receiver, scope, tableName, 0, []⟩ : Table) = true := by
    simp
  rw [List.find?_append, hf]
  have h1 : List.find? (fun t : Table => t.code == st.receiver && t.scope == scope &&
      t.tableName == tableName)
      [⟨st.store.tableIdSeq, st.receiver, scope, tableName, 0, []⟩] =
      some ⟨st.store.tableIdSeq, st.receiver, scope, tableName, 0, []⟩ :=
    List.find?_cons_of_pos _ hp0
  rw [h1]
  rfl

/-- Claim C9 witness: on the empty store, the zero-payer insert fails and
the empty table for (receiver 1, scope 2, table 3) exists afterwards. -/
theorem claim_C9_witness :
    (∃ m, (db_store_i64 ⟨⟨[], 0⟩, ⟨[], []⟩, 1⟩ 2 3 0 5 [6]).2 = .error m) ∧
    (∃ tab, (db_store_i64 ⟨⟨[], 0⟩, ⟨[], []⟩, 1⟩ 2 3 0 5 [6]).1.store.findTable 1 2 3 =
        some tab ∧ tab.rows = []) :=
  claim_C9_table_created_on_zero_payer ⟨⟨[], 0⟩, ⟨[], []⟩, 1⟩ 2 3 5 [6] rfl

lemma findEnd_lt {α : Type} {c : IteratorCache α} {e : Int} {tid : Nat}
    (h : c.findTableByEndIterator e = some tid) : e < -1 := by
  unfold IteratorCache.findTableByEndIterator at h
  by_cases he : e < -1
  · exact he
  · rw [if_neg he] at h
    cases h

/-- Claim C3: the primary-index iterator conventions. For every table
visited in the current action: `db_next_i64` on the handle of the table's
last row returns the table's end iterator, while `db_next_i64` on any end
iterator (any value < −1) returns −1; `db_previous_i64` on a table's end
iterator returns the row with the maximum primary key, or −1 when the
table is empty, and `db_previous_i64` on the first row returns −1; a
lookup (`db_find_i64`, `db_lowerbound_i64`, `db_upperbound_i64`) that
finds no row returns the table's end iterator — which is ≤ −2, hence
negative and distinct from −1 — while the same lookups (and `db_end_i64`)
on a table that does not exist return −1. -/
theorem claim_C3_primary_iterator_conventions :
    (∀ (st : DbState) (it : Int), it < -1 →
      db_next_i64 st it = (st, .ok (-1, none))) ∧
    (∀ (st : DbState) (h : Int) (kv : KeyValueObject) (tab : Table) (ei : Int),
      st.kvCache.get h = .ok kv →
      st.store.getTableById kv.tableId = some tab →
      (∀ r ∈ tab.rows, r.primaryKey ≤ kv.primaryKey) →
      st.kvCache.getEndIteratorByTableId kv.tableId = some ei →
      db_next_i64 st h = (st, .ok (ei, none))) ∧
    (∀ (st : DbState) (e : Int) (tid : Nat) (tab : Table),
      st.kvCache.findTableByEndIterator e = some tid →
      st.store.getTableById tid = some tab →
      ((tab.rows = [] → db_previous_i64 st e = (st, .ok (-1, none))) ∧
       (tab.rows ≠ [] → ∃ kv h2 st2,
          db_previous_i64 st e = (st2, .ok (h2, some kv.primaryKey)) ∧
          kv ∈ tab.rows ∧ (∀ r ∈ tab.rows, r.primaryKey ≤ kv.primaryKey) ∧ 0 ≤ h2))) ∧
    (∀ (st : DbState) (h : Int) (kv : KeyValueObject) (tab : Table),
      st.kvCache.get h = .ok kv →
      st.store.getTableById kv.tableId = some tab →
      (∀ r ∈ tab.rows, kv.primaryKey ≤ r.primaryKey) →
      db_previous_i64 st h = (st, .ok (-1, none))) ∧
    (∀ (st : DbState) (code scope tn id : Nat) (tab : Table),
      st.store.findTable code scope tn = some tab →
      (((∀ r ∈ tab.rows, r.primaryKey ≠ id) → ∃ st2 e,
          db_find_i64 st code scope tn id = (st2, e) ∧ e ≤ -2 ∧
          st2.kvCache.getEndIteratorByTableId tab.id = some e) ∧
       ((∀ r ∈ tab.rows, r.primaryKey < id) → ∃ st2 e,
          db_lowerbound_i64 st code scope tn id = (st2, e) ∧ e ≤ -2 ∧
          st2.kvCache.getEndIteratorByTableId tab.id = some e) ∧
       ((∀ r ∈ tab.rows, r.primaryKey ≤ id) → ∃ st2 e,
          db_upperbound_i64 st code scope tn id = (st2, e) ∧ e ≤ -2 ∧
          st2.kvCache.getEndIteratorByTableId tab.id = some e))) ∧
    (∀ (st : DbState) (code scope tn id : Nat),
      st.store.findTable code scope tn = none →
      db_find_i64 st code scope tn id = (st, -1) ∧
      db_lowerbound_i64 st code scope tn id = (st, -1) ∧
      db_upperbound_i64 st code scope tn id = (st, -1) ∧
      db_end_i64 st code scope tn = (st, -1)) := by
  refine ⟨?_, ?_, ?_, ?_, ?_, ?_⟩
  · intro st it hit
    unfold db_next_i64
    rw [if_pos hit]
  · intro st h kv tab ei hget htab hmax hei
    have h0 := cache_get_nonneg hget
    unfold db_next_i64
    rw [if_neg (show ¬h < -1 by omega)]
    simp only [hget, htab, table_next_eq_none hmax, hei]
  · intro st e tid tab hfe htab
    have he : e < -1 := findEnd_lt hfe
    constructor
    · intro hempty
      unfold db_previous_i64
      rw [if_pos he]
      simp only [hfe, htab, Table.penultimate, hempty]
      rfl
    · intro hne
      rcases maxRow_spec tab.rows with ⟨hnil, _⟩ | ⟨m, hm, hmem, hge⟩
      · exact absurd hnil hne
      · refine ⟨m, (st.kvCache.add m).1, { st with kvCache := (st.kvCache.add m).2 },
          ?_, hmem, hge, ?_⟩
        · unfold db_previous_i64
          rw [if_pos he]
          simp only [hfe, htab, Table.penultimate, hm]
        · show (0 : Int) ≤ Int.ofNat _
          exact Int.ofNat_nonneg _
  · intro st h kv tab hget htab hmin
    have h0 := cache_get_nonneg hget
    unfold db_previous_i64
    rw [if_neg (show ¬h < -1 by omega)]
    simp only [hget, htab, table_prev_eq_none hmin]
  · intro st code scope tn id tab hfind
    refine ⟨?_, ?_, ?_⟩
    · intro hno
      unfold db_find_i64
      simp only [hfind, table_get_eq_none hno]
      exact ⟨_, _, rfl, cacheTable_le_neg2 _ _, cacheTable_getEnd _ _⟩
    · intro hno
      unfold db_lowerbound_i64
      simp only [hfind, table_lowerbound_eq_none hno]
      exact ⟨_, _, rfl, cacheTable_le_neg2 _ _, cacheTable_getEnd _ _⟩
    · intro hno
      unfold db_upperbound_i64
      simp only [hfind, table_upperbound_eq_none hno]
      exact ⟨_, _, rfl, cacheTable_le_neg2 _ _, cacheTable_getEnd _ _⟩
  · intro st code scope tn id hnone
    refine ⟨?_, ?_, ?_, ?_⟩
    · unfold db_find_i64
      simp only [hnone]
    · unfold db_lowerbound_i64
      simp only [hnone]
    · unfold db_upperbound_i64
      simp only [hnone]
    · unfold db_end_i64
      simp only [hnone]

/-- Claim C3 witness: on a concrete state — one table (code 1, scope 2,
table 3) holding the single row with primary key 10 — `db_next_i64` on the
end sentinel −5 yields −1, a missed `db_find_i64` on a missing table
yields −1, and a missed lookup on the existing table yields its end
iterator ≤ −2. -/
theorem claim_C3_witness :
    db_next_i64 ⟨⟨[], 0⟩, ⟨[], []⟩, 1⟩ (-5) = (⟨⟨[], 0⟩, ⟨[], []⟩, 1⟩, .ok (-1, none)) ∧
    db_find_i64 ⟨⟨[], 0⟩, ⟨[], []⟩, 1⟩ 1 2 3 4 = (⟨⟨[], 0⟩, ⟨[], []⟩, 1⟩, -1) ∧
    (∃ st2 e, db_find_i64 ⟨⟨[⟨0, 1, 2, 3, 1, [⟨0, 10, 4, []⟩]⟩], 1⟩, ⟨[], []⟩, 1⟩
        1 2 3 11 = (st2, e) ∧ e ≤ -2 ∧
      st2.kvCache.getEndIteratorByTableId 0 = some e) :=
  ⟨claim_C3_primary_iterator_conventions.1 ⟨⟨[], 0⟩, ⟨[], []⟩, 1⟩ (-5) (by decide),
   (claim_C3_primary_iterator_conventions.2.2.2.2.2 ⟨⟨[], 0⟩, ⟨[], []⟩, 1⟩ 1 2 3 4 rfl).1,
   ((claim_C3_primary_iterator_conventions.2.2.2.2.1
      ⟨⟨[⟨0, 1, 2, 3, 1, [⟨0, 10, 4, []⟩]⟩], 1⟩, ⟨[], []⟩, 1⟩ 1 2 3 11
      ⟨0, 1, 2, 3, 1, [⟨0, 10, 4, []⟩]⟩ (by rfl)).1 (by decide))⟩
